import Mathlib

/-!
Verification of the interval / interval-set core of the `toybox` repository
(`src/collections/interval_set/`).  The Rust types `Endpoint<T>`, `Interval<T>`
and `IntervalSet<T>` are embedded shallowly.  The Rust code is generic over
`T: PartialOrd + Clone`; a Rust `partial_cmp` is modelled as a function
`c : α → α → Option Ordering` (`none` meaning "incomparable"), and the derived
comparison operators `<`, `<=`, `>`, `>=`, `==` are modelled exactly as Rust's
`PartialOrd` provided methods derive them from `partial_cmp`.  For a totally
ordered domain (the situation of most claims) the comparison is `linCmp α`,
built from a `LinearOrder`'s `compare`.
-/

set_option maxHeartbeats 1600000

namespace Toybox

/-- Endpoint of an interval, mirroring `Endpoint<T>` in
`src/collections/interval_set/endpoint.rs`: `Open(T)`, `Closed(T)`, `Unbounded`. -/
inductive Endpoint (α : Type) where
  | Open : α → Endpoint α
  | Closed : α → Endpoint α
  | Unbounded : Endpoint α
deriving DecidableEq, Repr

/-- Error type of `src/collections/interval_set/error.rs`. -/
inductive IntervalSetError where
  | InvalidInterval
  | MergeSeparatedIntervals
deriving DecidableEq, Repr

/-- Rust `a < b` as derived by `PartialOrd` from `partial_cmp`:
`matches!(partial_cmp(a, b), Some(Less))`. -/
def pcLt {α : Type} (c : α → α → Option Ordering) (a b : α) : Bool :=
  match c a b with
  | some Ordering.lt => true
  | _ => false

/-- Rust `a > b` as derived by `PartialOrd`:
`matches!(partial_cmp(a, b), Some(Greater))`. -/
def pcGt {α : Type} (c : α → α → Option Ordering) (a b : α) : Bool :=
  match c a b with
  | some Ordering.gt => true
  | _ => false

/-- Rust `a <= b` as derived by `PartialOrd`:
`matches!(partial_cmp(a, b), Some(Less | Equal))`. -/
def pcLe {α : Type} (c : α → α → Option Ordering) (a b : α) : Bool :=
  match c a b with
  | some Ordering.lt => true
  | some Ordering.eq => true
  | _ => false

/-- Rust `a >= b` as derived by `PartialOrd`:
`matches!(partial_cmp(a, b), Some(Greater | Equal))`. -/
def pcGe {α : Type} (c : α → α → Option Ordering) (a b : α) : Bool :=
  match c a b with
  | some Ordering.gt => true
  | some Ordering.eq => true
  | _ => false

/-- Rust `a == b` for a `PartialOrd` type whose equality is consistent with
`partial_cmp` (the `PartialOrd` contract): `partial_cmp(a, b) == Some(Equal)`. -/
def pcEq {α : Type} (c : α → α → Option Ordering) (a b : α) : Bool :=
  match c a b with
  | some Ordering.eq => true
  | _ => false

/-- Interval struct of `src/collections/interval_set/interval.rs`:
a left and a right `Endpoint`. -/
structure Interval (α : Type) where
  left : Endpoint α
  right : Endpoint α
deriving DecidableEq, Repr

namespace Interval

variable {α : Type}

/-- Mirrors `Interval::new`: validate a left/right endpoint pair.
Bounded-bounded pairs need `low < high` (`low <= high` when both closed);
a pair with an unbounded side is always accepted. -/
def new (c : α → α → Option Ordering) (left right : Endpoint α) :
    Except IntervalSetError (Interval α) :=
  match left, right with
  | Endpoint.Open low, Endpoint.Open high
  | Endpoint.Open low, Endpoint.Closed high
  | Endpoint.Closed low, Endpoint.Open high =>
    if pcLt c low high then Except.ok ⟨left, right⟩
    else Except.error IntervalSetError.InvalidInterval
  | Endpoint.Closed low, Endpoint.Closed high =>
    if pcLe c low high then Except.ok ⟨left, right⟩
    else Except.error IntervalSetError.InvalidInterval
  | Endpoint.Unbounded, _ => Except.ok ⟨left, right⟩
  | _, Endpoint.Unbounded => Except.ok ⟨left, right⟩

/-- Mirrors `Interval::open`. -/
def «open» (c : α → α → Option Ordering) (low high : α) :
    Except IntervalSetError (Interval α) :=
  if pcLt c low high then Except.ok ⟨Endpoint.Open low, Endpoint.Open high⟩
  else Except.error IntervalSetError.InvalidInterval

/-- Mirrors `Interval::closed`. -/
def closed (c : α → α → Option Ordering) (low high : α) :
    Except IntervalSetError (Interval α) :=
  if pcLe c low high then Except.ok ⟨Endpoint.Closed low, Endpoint.Closed high⟩
  else Except.error IntervalSetError.InvalidInterval

/-- Mirrors `Interval::open_closed`. -/
def open_closed (c : α → α → Option Ordering) (low high : α) :
    Except IntervalSetError (Interval α) :=
  if pcLt c low high then Except.ok ⟨Endpoint.Open low, Endpoint.Closed high⟩
  else Except.error IntervalSetError.InvalidInterval

/-- Mirrors `Interval::closed_open`. -/
def closed_open (c : α → α → Option Ordering) (low high : α) :
    Except IntervalSetError (Interval α) :=
  if pcLt c low high then Except.ok ⟨Endpoint.Closed low, Endpoint.Open high⟩
  else Except.error IntervalSetError.InvalidInterval

/-- Mirrors `Interval::unbounded_open`. -/
def unbounded_open (high : α) : Interval α :=
  ⟨Endpoint.Unbounded, Endpoint.Open high⟩

/-- Mirrors `Interval::unbounded_closed`. -/
def unbounded_closed (high : α) : Interval α :=
  ⟨Endpoint.Unbounded, Endpoint.Closed high⟩

/-- Mirrors `Interval::open_unbounded`. -/
def open_unbounded (low : α) : Interval α :=
  ⟨Endpoint.Open low, Endpoint.Unbounded⟩

/-- Mirrors `Interval::closed_unbounded`. -/
def closed_unbounded (low : α) : Interval α :=
  ⟨Endpoint.Closed low, Endpoint.Unbounded⟩

/-- Mirrors `Interval::low`. -/
def low (i : Interval α) : Option α :=
  match i.left with
  | Endpoint.Open l => some l
  | Endpoint.Closed l => some l
  | Endpoint.Unbounded => none

/-- Mirrors `Interval::high`. -/
def high (i : Interval α) : Option α :=
  match i.right with
  | Endpoint.Open h => some h
  | Endpoint.Closed h => some h
  | Endpoint.Unbounded => none

/-- Mirrors `Interval::is_degenerate`: both endpoints `Closed` with equal values. -/
def is_degenerate (c : α → α → Option Ordering) (i : Interval α) : Bool :=
  match i.left, i.right with
  | Endpoint.Closed l, Endpoint.Closed h => pcEq c l h
  | _, _ => false

/-- Mirrors `Interval::is_other_separated_from_this_to_the_left`. -/
def is_other_separated_from_this_to_the_left (c : α → α → Option Ordering)
    (self other : Interval α) : Bool :=
  match self.left with
  | Endpoint.Open this_low =>
    (match other.right with
      | Endpoint.Open other_high => pcGe c this_low other_high
      | _ => false) ||
    (match other.right with
      | Endpoint.Closed other_high => pcGt c this_low other_high
      | _ => false)
  | Endpoint.Closed this_low =>
    match other.right with
    | Endpoint.Open other_high => pcGt c this_low other_high
    | Endpoint.Closed other_high => pcGt c this_low other_high
    | Endpoint.Unbounded => false
  | Endpoint.Unbounded => false

/-- Mirrors `Interval::is_other_separated_from_this_to_the_right`. -/
def is_other_separated_from_this_to_the_right (c : α → α → Option Ordering)
    (self other : Interval α) : Bool :=
  match self.right with
  | Endpoint.Open this_high =>
    (match other.left with
      | Endpoint.Open other_low => pcLe c this_high other_low
      | _ => false) ||
    (match other.left with
      | Endpoint.Closed other_low => pcLt c this_high other_low
      | _ => false)
  | Endpoint.Closed this_high =>
    match other.left with
    | Endpoint.Open other_low => pcLt c this_high other_low
    | Endpoint.Closed other_low => pcLt c this_high other_low
    | Endpoint.Unbounded => false
  | Endpoint.Unbounded => false

/-- Mirrors `Interval::is_separated_from`. -/
def is_separated_from (c : α → α → Option Ordering) (self other : Interval α) : Bool :=
  is_other_separated_from_this_to_the_left c self other ||
    is_other_separated_from_this_to_the_right c self other

/-- Helper modelling Rust `matches!(e, Endpoint::Unbounded)`. -/
def isUnboundedEndpoint (e : Endpoint α) : Bool :=
  match e with
  | Endpoint.Unbounded => true
  | _ => false

/-- Helper modelling Rust `matches!(e, Endpoint::Closed(_))`. -/
def isClosedEndpoint (e : Endpoint α) : Bool :=
  match e with
  | Endpoint.Closed _ => true
  | _ => false

/-- Helper modelling Rust `matches!(e, Endpoint::Open(_))`. -/
def isOpenEndpoint (e : Endpoint α) : Bool :=
  match e with
  | Endpoint.Open _ => true
  | _ => false

/-- Mirrors `Interval::smaller_left_endpoint`.  The final wildcard arm is
unreachable: both left endpoints are bounded there, so `low` is `some`
(the Rust code uses `unwrap`). -/
def smaller_left_endpoint (c : α → α → Option Ordering) (self other : Interval α) :
    Endpoint α :=
  if isUnboundedEndpoint self.left || isUnboundedEndpoint other.left then
    Endpoint.Unbounded
  else
    match self.low, other.low with
    | some this_low, some other_low =>
      if pcLt c this_low other_low then self.left
      else if pcGt c this_low other_low then other.left
      else if isClosedEndpoint self.left || isClosedEndpoint other.left then
        Endpoint.Closed this_low
      else
        Endpoint.Open this_low
    | _, _ => Endpoint.Unbounded

/-- Mirrors `Interval::greater_left_endpoint`.  The final wildcard arm is
unreachable (Rust `unwrap`). -/
def greater_left_endpoint (c : α → α → Option Ordering) (self other : Interval α) :
    Endpoint α :=
  if isUnboundedEndpoint self.left then other.left
  else if isUnboundedEndpoint other.left then self.left
  else
    match self.low, other.low with
    | some this_low, some other_low =>
      if pcGt c this_low other_low then self.left
      else if pcLt c this_low other_low then other.left
      else if isOpenEndpoint self.left || isOpenEndpoint other.left then
        Endpoint.Open this_low
      else
        Endpoint.Closed this_low
    | _, _ => Endpoint.Unbounded

/-- Mirrors `Interval::less_right_endpoint`.  The final wildcard arm is
unreachable (Rust `unwrap`). -/
def less_right_endpoint (c : α → α → Option Ordering) (self other : Interval α) :
    Endpoint α :=
  if isUnboundedEndpoint self.right then other.right
  else if isUnboundedEndpoint other.right then self.right
  else
    match self.high, other.high with
    | some this_high, some other_high =>
      if pcLt c this_high other_high then self.right
      else if pcGt c this_high other_high then other.right
      else if isOpenEndpoint self.right || isOpenEndpoint other.right then
        Endpoint.Open this_high
      else
        Endpoint.Closed this_high
    | _, _ => Endpoint.Unbounded

/-- Mirrors `Interval::greater_right_endpoint`.  The final wildcard arm is
unreachable (Rust `unwrap`). -/
def greater_right_endpoint (c : α → α → Option Ordering) (self other : Interval α) :
    Endpoint α :=
  if isUnboundedEndpoint self.right || isUnboundedEndpoint other.right then
    Endpoint.Unbounded
  else
    match self.high, other.high with
    | some this_high, some other_high =>
      if pcGt c this_high other_high then self.right
      else if pcLt c this_high other_high then other.right
      else if isClosedEndpoint self.right || isClosedEndpoint other.right then
        Endpoint.Closed this_high
      else
        Endpoint.Open this_high
    | _, _ => Endpoint.Unbounded

/-- Mirrors `Interval::merge`: error on separated intervals, otherwise the
convex hull of the two intervals. -/
def merge (c : α → α → Option Ordering) (self other : Interval α) :
    Except IntervalSetError (Interval α) :=
  if is_separated_from c self other then
    Except.error IntervalSetError.MergeSeparatedIntervals
  else
    Except.ok ⟨smaller_left_endpoint c self other, greater_right_endpoint c self other⟩

/-- Mirrors `impl Display for Interval`, with `fmt` rendering the domain values
(the Rust `{}` of the value type). -/
def display (c : α → α → Option Ordering) (fmt : α → String) (i : Interval α) : String :=
  match i.left, i.right with
  | Endpoint.Open l, Endpoint.Open h => "(" ++ fmt l ++ ", " ++ fmt h ++ ")"
  | Endpoint.Open l, Endpoint.Closed h => "(" ++ fmt l ++ ", " ++ fmt h ++ "]"
  | Endpoint.Closed l, Endpoint.Open h => "[" ++ fmt l ++ ", " ++ fmt h ++ ")"
  | Endpoint.Closed l, Endpoint.Closed h =>
    if pcEq c l h then "[" ++ fmt l ++ "]"
    else "[" ++ fmt l ++ ", " ++ fmt h ++ "]"
  | Endpoint.Unbounded, Endpoint.Open h => "(-∞, " ++ fmt h ++ ")"
  | Endpoint.Unbounded, Endpoint.Closed h => "(-∞, " ++ fmt h ++ "]"
  | Endpoint.Open l, Endpoint.Unbounded => "(" ++ fmt l ++ ", +∞)"
  | Endpoint.Closed l, Endpoint.Unbounded => "[" ++ fmt l ++ ", +∞)"
  | Endpoint.Unbounded, Endpoint.Unbounded => "(-∞, +∞)"

end Interval

/-- Comparison of a totally ordered domain: the `partial_cmp` of a Rust type
with a total order, modelled from a `LinearOrder`'s `compare`. -/
def linCmp (α : Type) [LinearOrder α] : α → α → Option Ordering :=
  fun a b => some (compare a b)

/-- Mirrors `Result::is_ok`. -/
def exceptIsOk {ε β : Type} (e : Except ε β) : Bool :=
  match e with
  | Except.ok _ => true
  | Except.error _ => false

/-- Structural decidable equality for `Except`, used to state concrete
evaluations of the fallible operations. -/
instance {ε β : Type} [DecidableEq ε] [DecidableEq β] : DecidableEq (Except ε β) := fun x y =>
  match x, y with
  | Except.ok a, Except.ok b => decidable_of_iff (a = b) (by simp)
  | Except.error a, Except.error b => decidable_of_iff (a = b) (by simp)
  | Except.ok _, Except.error _ => isFalse (fun h => Except.noConfusion h)
  | Except.error _, Except.ok _ => isFalse (fun h => Except.noConfusion h)

section LinCmpFacts

variable {α : Type} [LinearOrder α]

theorem pcLt_linCmp (a b : α) : pcLt (linCmp α) a b = decide (a < b) := by
  cases h : compare a b with
  | lt => simp [pcLt, linCmp, h, compare_lt_iff_lt.1 h]
  | eq =>
    have hab : a = b := compare_eq_iff_eq.1 h
    subst hab
    simp [pcLt, linCmp, h]
  | gt =>
    have hba : b < a := compare_gt_iff_gt.1 h
    simp [pcLt, linCmp, h, lt_asymm hba]

theorem pcGt_linCmp (a b : α) : pcGt (linCmp α) a b = decide (b < a) := by
  cases h : compare a b with
  | lt =>
    have hab : a < b := compare_lt_iff_lt.1 h
    simp [pcGt, linCmp, h, lt_asymm hab]
  | eq =>
    have hab : a = b := compare_eq_iff_eq.1 h
    subst hab
    simp [pcGt, linCmp, h]
  | gt => simp [pcGt, linCmp, h, compare_gt_iff_gt.1 h]

theorem pcLe_linCmp (a b : α) : pcLe (linCmp α) a b = decide (a ≤ b) := by
  cases h : compare a b with
  | lt => simp [pcLe, linCmp, h, le_of_lt (compare_lt_iff_lt.1 h)]
  | eq =>
    have hab : a = b := compare_eq_iff_eq.1 h
    subst hab
    simp [pcLe, linCmp, h]
  | gt =>
    have hba : b < a := compare_gt_iff_gt.1 h
    simp [pcLe, linCmp, h, not_le_of_lt hba]

theorem pcGe_linCmp (a b : α) : pcGe (linCmp α) a b = decide (b ≤ a) := by
  cases h : compare a b with
  | lt =>
    have hab : a < b := compare_lt_iff_lt.1 h
    simp [pcGe, linCmp, h, not_le_of_lt hab]
  | eq =>
    have hab : a = b := compare_eq_iff_eq.1 h
    subst hab
    simp [pcGe, linCmp, h]
  | gt => simp [pcGe, linCmp, h, le_of_lt (compare_gt_iff_gt.1 h)]

theorem pcEq_linCmp (a b : α) : pcEq (linCmp α) a b = decide (a = b) := by
  cases h : compare a b with
  | lt =>
    have hab : a < b := compare_lt_iff_lt.1 h
    simp [pcEq, linCmp, h, ne_of_lt hab]
  | eq =>
    have hab : a = b := compare_eq_iff_eq.1 h
    subst hab
    simp [pcEq, linCmp, h]
  | gt =>
    have hba : b < a := compare_gt_iff_gt.1 h
    simp [pcEq, linCmp, h, (ne_of_lt hba).symm]

end LinCmpFacts

section SymmetryFacts

variable {α : Type} [LinearOrder α]

theorem otherSepLeft_eq_swap (l r lo ro : Endpoint α) :
    Interval.is_other_separated_from_this_to_the_left (linCmp α) ⟨l, r⟩ ⟨lo, ro⟩ =
      Interval.is_other_separated_from_this_to_the_right (linCmp α) ⟨lo, ro⟩ ⟨l, r⟩ := by
  cases l <;> cases ro <;>
    simp [Interval.is_other_separated_from_this_to_the_left,
      Interval.is_other_separated_from_this_to_the_right,
      pcLt_linCmp, pcGt_linCmp, pcLe_linCmp, pcGe_linCmp]

theorem sep_symm (A B : Interval α) :
    Interval.is_separated_from (linCmp α) A B = Interval.is_separated_from (linCmp α) B A := by
  rcases A with ⟨l, r⟩
  rcases B with ⟨lo, ro⟩
  unfold Interval.is_separated_from
  rw [otherSepLeft_eq_swap l r lo ro, ← otherSepLeft_eq_swap lo ro l r, Bool.or_comm]

end SymmetryFacts

section CommFacts

variable {α : Type} [LinearOrder α]

theorem smaller_left_comm (A B : Interval α) :
    Interval.smaller_left_endpoint (linCmp α) A B =
      Interval.smaller_left_endpoint (linCmp α) B A := by
  rcases A with ⟨l, r⟩
  rcases B with ⟨lo, ro⟩
  cases l with
  | Unbounded =>
    cases lo <;>
      simp [Interval.smaller_left_endpoint, Interval.isUnboundedEndpoint]
  | Open a =>
    cases lo with
    | Unbounded =>
      simp [Interval.smaller_left_endpoint, Interval.isUnboundedEndpoint]
    | Open b =>
      rcases lt_trichotomy a b with h | h | h
      · simp [Interval.smaller_left_endpoint, Interval.isUnboundedEndpoint,
          Interval.isClosedEndpoint, Interval.low, pcLt_linCmp, pcGt_linCmp, h, lt_asymm h]
      · subst h
        simp [Interval.smaller_left_endpoint, Interval.isUnboundedEndpoint,
          Interval.isClosedEndpoint, Interval.low, pcLt_linCmp, pcGt_linCmp]
      · simp [Interval.smaller_left_endpoint, Interval.isUnboundedEndpoint,
          Interval.isClosedEndpoint, Interval.low, pcLt_linCmp, pcGt_linCmp, h, lt_asymm h]
    | Closed b =>
      rcases lt_trichotomy a b with h | h | h
      · simp [Interval.smaller_left_endpoint, Interval.isUnboundedEndpoint,
          Interval.isClosedEndpoint, Interval.low, pcLt_linCmp, pcGt_linCmp, h, lt_asymm h]
      · subst h
        simp [Interval.smaller_left_endpoint, Interval.isUnboundedEndpoint,
          Interval.isClosedEndpoint, Interval.low, pcLt_linCmp, pcGt_linCmp]
      · simp [Interval.smaller_left_endpoint, Interval.isUnboundedEndpoint,
          Interval.isClosedEndpoint, Interval.low, pcLt_linCmp, pcGt_linCmp, h, lt_asymm h]
  | Closed a =>
    cases lo with
    | Unbounded =>
      simp [Interval.smaller_left_endpoint, Interval.isUnboundedEndpoint]
    | Open b =>
      rcases lt_trichotomy a b with h | h | h
      · simp [Interval.smaller_left_endpoint, Interval.isUnboundedEndpoint,
          Interval.isClosedEndpoint, Interval.low, pcLt_linCmp, pcGt_linCmp, h, lt_asymm h]
      · subst h
        simp [Interval.smaller_left_endpoint, Interval.isUnboundedEndpoint,
          Interval.isClosedEndpoint, Interval.low, pcLt_linCmp, pcGt_linCmp]
      · simp [Interval.smaller_left_endpoint, Interval.isUnboundedEndpoint,
          Interval.isClosedEndpoint, Interval.low, pcLt_linCmp, pcGt_linCmp, h, lt_asymm h]
    | Closed b =>
      rcases lt_trichotomy a b with h | h | h
      · simp [Interval.smaller_left_endpoint, Interval.isUnboundedEndpoint,
          Interval.isClosedEndpoint, Interval.low, pcLt_linCmp, pcGt_linCmp, h, lt_asymm h]
      · subst h
        simp [Interval.smaller_left_endpoint, Interval.isUnboundedEndpoint,
          Interval.isClosedEndpoint, Interval.low, pcLt_linCmp, pcGt_linCmp]
      · simp [Interval.smaller_left_endpoint, Interval.isUnboundedEndpoint,
          Interval.isClosedEndpoint, Interval.low, pcLt_linCmp, pcGt_linCmp, h, lt_asymm h]

theorem greater_right_comm (A B : Interval α) :
    Interval.greater_right_endpoint (linCmp α) A B =
      Interval.greater_right_endpoint (linCmp α) B A := by
  rcases A with ⟨l, r⟩
  rcases B with ⟨lo, ro⟩
  cases r with
  | Unbounded =>
    cases ro <;>
      simp [Interval.greater_right_endpoint, Interval.isUnboundedEndpoint]
  | Open a =>
    cases ro with
    | Unbounded =>
      simp [Interval.greater_right_endpoint, Interval.isUnboundedEndpoint]
    | Open b =>
      rcases lt_trichotomy a b with h | h | h
      · simp [Interval.greater_right_endpoint, Interval.isUnboundedEndpoint,
          Interval.isClosedEndpoint, Interval.high, pcLt_linCmp, pcGt_linCmp, h, lt_asymm h]
      · subst h
        simp [Interval.greater_right_endpoint, Interval.isUnboundedEndpoint,
          Interval.isClosedEndpoint, Interval.high, pcLt_linCmp, pcGt_linCmp]
      · simp [Interval.greater_right_endpoint, Interval.isUnboundedEndpoint,
          Interval.isClosedEndpoint, Interval.high, pcLt_linCmp, pcGt_linCmp, h, lt_asymm h]
    | Closed b =>
      rcases lt_trichotomy a b with h | h | h
      · simp [Interval.greater_right_endpoint, Interval.isUnboundedEndpoint,
          Interval.isClosedEndpoint, Interval.high, pcLt_linCmp, pcGt_linCmp, h, lt_asymm h]
      · subst h
        simp [Interval.greater_right_endpoint, Interval.isUnboundedEndpoint,
          Interval.isClosedEndpoint, Interval.high, pcLt_linCmp, pcGt_linCmp]
      · simp [Interval.greater_right_endpoint, Interval.isUnboundedEndpoint,
          Interval.isClosedEndpoint, Interval.high, pcLt_linCmp, pcGt_linCmp, h, lt_asymm h]
  | Closed a =>
    cases ro with
    | Unbounded =>
      simp [Interval.greater_right_endpoint, Interval.isUnboundedEndpoint]
    | Open b =>
      rcases lt_trichotomy a b with h | h | h
      · simp [Interval.greater_right_endpoint, Interval.isUnboundedEndpoint,
          Interval.isClosedEndpoint, Interval.high, pcLt_linCmp, pcGt_linCmp, h, lt_asymm h]
      · subst h
        simp [Interval.greater_right_endpoint, Interval.isUnboundedEndpoint,
          Interval.isClosedEndpoint, Interval.high, pcLt_linCmp, pcGt_linCmp]
      · simp [Interval.greater_right_endpoint, Interval.isUnboundedEndpoint,
          Interval.isClosedEndpoint, Interval.high, pcLt_linCmp, pcGt_linCmp, h, lt_asymm h]
    | Closed b =>
      rcases lt_trichotomy a b with h | h | h
      · simp [Interval.greater_right_endpoint, Interval.isUnboundedEndpoint,
          Interval.isClosedEndpoint, Interval.high, pcLt_linCmp, pcGt_linCmp, h, lt_asymm h]
      · subst h
        simp [Interval.greater_right_endpoint, Interval.isUnboundedEndpoint,
          Interval.isClosedEndpoint, Interval.high, pcLt_linCmp, pcGt_linCmp]
      · simp [Interval.greater_right_endpoint, Interval.isUnboundedEndpoint,
          Interval.isClosedEndpoint, Interval.high, pcLt_linCmp, pcGt_linCmp, h, lt_asymm h]

theorem merge_comm (A B : Interval α) :
    Interval.merge (linCmp α) A B = Interval.merge (linCmp α) B A := by
  unfold Interval.merge
  rw [sep_symm, smaller_left_comm, greater_right_comm]

end CommFacts

/-- Value carried by a bounded endpoint. -/
def endpointValue {α : Type} : Endpoint α → Option α
  | Endpoint.Open a => some a
  | Endpoint.Closed a => some a
  | Endpoint.Unbounded => none

/-- Combination rule for the merged left endpoint, transcribed from the spec
sentence: `Unbounded` dominates; if both are bounded and the values differ the
smaller value's endpoint wins; on equal values `Closed` wins over `Open`. -/
def specMergeLeft {α : Type} [LinearOrder α] : Endpoint α → Endpoint α → Endpoint α
  | Endpoint.Unbounded, _ => Endpoint.Unbounded
  | _, Endpoint.Unbounded => Endpoint.Unbounded
  | Endpoint.Open a, Endpoint.Open b =>
    if a < b then Endpoint.Open a else if b < a then Endpoint.Open b else Endpoint.Open a
  | Endpoint.Open a, Endpoint.Closed b =>
    if a < b then Endpoint.Open a else if b < a then Endpoint.Closed b else Endpoint.Closed a
  | Endpoint.Closed a, Endpoint.Open b =>
    if a < b then Endpoint.Closed a else if b < a then Endpoint.Open b else Endpoint.Closed a
  | Endpoint.Closed a, Endpoint.Closed b =>
    if a < b then Endpoint.Closed a else if b < a then Endpoint.Closed b else Endpoint.Closed a

/-- Combination rule for the merged right endpoint, transcribed from the spec
sentence: `Unbounded` dominates; the larger value wins; on a value tie `Closed`
wins over `Open`. -/
def specMergeRight {α : Type} [LinearOrder α] : Endpoint α → Endpoint α → Endpoint α
  | Endpoint.Unbounded, _ => Endpoint.Unbounded
  | _, Endpoint.Unbounded => Endpoint.Unbounded
  | Endpoint.Open a, Endpoint.Open b =>
    if b < a then Endpoint.Open a else if a < b then Endpoint.Open b else Endpoint.Open a
  | Endpoint.Open a, Endpoint.Closed b =>
    if b < a then Endpoint.Open a else if a < b then Endpoint.Closed b else Endpoint.Closed a
  | Endpoint.Closed a, Endpoint.Open b =>
    if b < a then Endpoint.Closed a else if a < b then Endpoint.Open b else Endpoint.Closed a
  | Endpoint.Closed a, Endpoint.Closed b =>
    if b < a then Endpoint.Closed a else if a < b then Endpoint.Closed b else Endpoint.Closed a

section SpecMergeFacts

variable {α : Type} [LinearOrder α]

theorem smaller_left_eq_spec (A B : Interval α) :
    Interval.smaller_left_endpoint (linCmp α) A B = specMergeLeft A.left B.left := by
  rcases A with ⟨l, r⟩
  rcases B with ⟨lo, ro⟩
  cases l with
  | Unbounded =>
    cases lo <;>
      simp [Interval.smaller_left_endpoint, Interval.isUnboundedEndpoint, specMergeLeft]
  | Open a =>
    cases lo with
    | Unbounded =>
      simp [Interval.smaller_left_endpoint, Interval.isUnboundedEndpoint, specMergeLeft]
    | Open b =>
      rcases lt_trichotomy a b with h | h | h
      · simp [Interval.smaller_left_endpoint, Interval.isUnboundedEndpoint,
          Interval.isClosedEndpoint, Interval.low, pcLt_linCmp, pcGt_linCmp, specMergeLeft,
          h, lt_asymm h]
      · subst h
        simp [Interval.smaller_left_endpoint, Interval.isUnboundedEndpoint,
          Interval.isClosedEndpoint, Interval.low, pcLt_linCmp, pcGt_linCmp, specMergeLeft]
      · simp [Interval.smaller_left_endpoint, Interval.isUnboundedEndpoint,
          Interval.isClosedEndpoint, Interval.low, pcLt_linCmp, pcGt_linCmp, specMergeLeft,
          h, lt_asymm h]
    | Closed b =>
      rcases lt_trichotomy a b with h | h | h
      · simp [Interval.smaller_left_endpoint, Interval.isUnboundedEndpoint,
          Interval.isClosedEndpoint, Interval.low, pcLt_linCmp, pcGt_linCmp, specMergeLeft,
          h, lt_asymm h]
      · subst h
        simp [Interval.smaller_left_endpoint, Interval.isUnboundedEndpoint,
          Interval.isClosedEndpoint, Interval.low, pcLt_linCmp, pcGt_linCmp, specMergeLeft]
      · simp [Interval.smaller_left_endpoint, Interval.isUnboundedEndpoint,
          Interval.isClosedEndpoint, Interval.low, pcLt_linCmp, pcGt_linCmp, specMergeLeft,
          h, lt_asymm h]
  | Closed a =>
    cases lo with
    | Unbounded =>
      simp [Interval.smaller_left_endpoint, Interval.isUnboundedEndpoint, specMergeLeft]
    | Open b =>
      rcases lt_trichotomy a b with h | h | h
      · simp [Interval.smaller_left_endpoint, Interval.isUnboundedEndpoint,
          Interval.isClosedEndpoint, Interval.low, pcLt_linCmp, pcGt_linCmp, specMergeLeft,
          h, lt_asymm h]
      · subst h
        simp [Interval.smaller_left_endpoint, Interval.isUnboundedEndpoint,
          Interval.isClosedEndpoint, Interval.low, pcLt_linCmp, pcGt_linCmp, specMergeLeft]
      · simp [Interval.smaller_left_endpoint, Interval.isUnboundedEndpoint,
          Interval.isClosedEndpoint, Interval.low, pcLt_linCmp, pcGt_linCmp, specMergeLeft,
          h, lt_asymm h]
    | Closed b =>
      rcases lt_trichotomy a b with h | h | h
      · simp [Interval.smaller_left_endpoint, Interval.isUnboundedEndpoint,
          Interval.isClosedEndpoint, Interval.low, pcLt_linCmp, pcGt_linCmp, specMergeLeft,
          h, lt_asymm h]
      · subst h
        simp [Interval.smaller_left_endpoint, Interval.isUnboundedEndpoint,
          Interval.isClosedEndpoint, Interval.low, pcLt_linCmp, pcGt_linCmp, specMergeLeft]
      · simp [Interval.smaller_left_endpoint, Interval.isUnboundedEndpoint,
          Interval.isClosedEndpoint, Interval.low, pcLt_linCmp, pcGt_linCmp, specMergeLeft,
          h, lt_asymm h]

theorem greater_right_eq_spec (A B : Interval α) :
    Interval.greater_right_endpoint (linCmp α) A B = specMergeRight A.right B.right := by
  rcases A with ⟨l, r⟩
  rcases B with ⟨lo, ro⟩
  cases r with
  | Unbounded =>
    cases ro <;>
      simp [Interval.greater_right_endpoint, Interval.isUnboundedEndpoint, specMergeRight]
  | Open a =>
    cases ro with
    | Unbounded =>
      simp [Interval.greater_right_endpoint, Interval.isUnboundedEndpoint, specMergeRight]
    | Open b =>
      rcases lt_trichotomy a b with h | h | h
      · simp [Interval.greater_right_endpoint, Interval.isUnboundedEndpoint,
          Interval.isClosedEndpoint, Interval.high, pcLt_linCmp, pcGt_linCmp, specMergeRight,
          h, lt_asymm h]
      · subst h
        simp [Interval.greater_right_endpoint, Interval.isUnboundedEndpoint,
          Interval.isClosedEndpoint, Interval.high, pcLt_linCmp, pcGt_linCmp, specMergeRight]
      · simp [Interval.greater_right_endpoint, Interval.isUnboundedEndpoint,
          Interval.isClosedEndpoint, Interval.high, pcLt_linCmp, pcGt_linCmp, specMergeRight,
          h, lt_asymm h]
    | Closed b =>
      rcases lt_trichotomy a b with h | h | h
      · simp [Interval.greater_right_endpoint, Interval.isUnboundedEndpoint,
          Interval.isClosedEndpoint, Interval.high, pcLt_linCmp, pcGt_linCmp, specMergeRight,
          h, lt_asymm h]
      · subst h
        simp [Interval.greater_right_endpoint, Interval.isUnboundedEndpoint,
          Interval.isClosedEndpoint, Interval.high, pcLt_linCmp, pcGt_linCmp, specMergeRight]
      · simp [Interval.greater_right_endpoint, Interval.isUnboundedEndpoint,
          Interval.isClosedEndpoint, Interval.high, pcLt_linCmp, pcGt_linCmp, specMergeRight,
          h, lt_asymm h]
  | Closed a =>
    cases ro with
    | Unbounded =>
      simp [Interval.greater_right_endpoint, Interval.isUnboundedEndpoint, specMergeRight]
    | Open b =>
      rcases lt_trichotomy a b with h | h | h
      · simp [Interval.greater_right_endpoint, Interval.isUnboundedEndpoint,
          Interval.isClosedEndpoint, Interval.high, pcLt_linCmp, pcGt_linCmp, specMergeRight,
          h, lt_asymm h]
      · subst h
        simp [Interval.greater_right_endpoint, Interval.isUnboundedEndpoint,
          Interval.isClosedEndpoint, Interval.high, pcLt_linCmp, pcGt_linCmp, specMergeRight]
      · simp [Interval.greater_right_endpoint, Interval.isUnboundedEndpoint,
          Interval.isClosedEndpoint, Interval.high, pcLt_linCmp, pcGt_linCmp, specMergeRight,
          h, lt_asymm h]
    | Closed b =>
      rcases lt_trichotomy a b with h | h | h
      · simp [Interval.greater_right_endpoint, Interval.isUnboundedEndpoint,
          Interval.isClosedEndpoint, Interval.high, pcLt_linCmp, pcGt_linCmp, specMergeRight,
          h, lt_asymm h]
      · subst h
        simp [Interval.greater_right_endpoint, Interval.isUnboundedEndpoint,
          Interval.isClosedEndpoint, Interval.high, pcLt_linCmp, pcGt_linCmp, specMergeRight]
      · simp [Interval.greater_right_endpoint, Interval.isUnboundedEndpoint,
          Interval.isClosedEndpoint, Interval.high, pcLt_linCmp, pcGt_linCmp, specMergeRight,
          h, lt_asymm h]

end SpecMergeFacts

section HullFacts

variable {α : Type} [LinearOrder α]

theorem specMergeLeft_value_left (l lo : Endpoint α) (x : α)
    (hx : endpointValue (specMergeLeft l lo) = some x) :
    ∃ a, endpointValue l = some a ∧ x ≤ a := by
  cases l with
  | Unbounded => simp [specMergeLeft, endpointValue] at hx
  | Open a =>
    cases lo with
    | Unbounded => simp [specMergeLeft, endpointValue] at hx
    | Open b =>
      rcases lt_trichotomy a b with h | h | h
      · simp [specMergeLeft, endpointValue, h, lt_asymm h] at hx
        subst hx; exact ⟨_, rfl, le_refl _⟩
      · subst h
        simp [specMergeLeft, endpointValue] at hx
        subst hx; exact ⟨_, rfl, le_refl _⟩
      · simp [specMergeLeft, endpointValue, h, lt_asymm h] at hx
        subst hx; exact ⟨a, rfl, le_of_lt h⟩
    | Closed b =>
      rcases lt_trichotomy a b with h | h | h
      · simp [specMergeLeft, endpointValue, h, lt_asymm h] at hx
        subst hx; exact ⟨_, rfl, le_refl _⟩
      · subst h
        simp [specMergeLeft, endpointValue] at hx
        subst hx; exact ⟨_, rfl, le_refl _⟩
      · simp [specMergeLeft, endpointValue, h, lt_asymm h] at hx
        subst hx; exact ⟨a, rfl, le_of_lt h⟩
  | Closed a =>
    cases lo with
    | Unbounded => simp [specMergeLeft, endpointValue] at hx
    | Open b =>
      rcases lt_trichotomy a b with h | h | h
      · simp [specMergeLeft, endpointValue, h, lt_asymm h] at hx
        subst hx; exact ⟨_, rfl, le_refl _⟩
      · subst h
        simp [specMergeLeft, endpointValue] at hx
        subst hx; exact ⟨_, rfl, le_refl _⟩
      · simp [specMergeLeft, endpointValue, h, lt_asymm h] at hx
        subst hx; exact ⟨a, rfl, le_of_lt h⟩
    | Closed b =>
      rcases lt_trichotomy a b with h | h | h
      · simp [specMergeLeft, endpointValue, h, lt_asymm h] at hx
        subst hx; exact ⟨_, rfl, le_refl _⟩
      · subst h
        simp [specMergeLeft, endpointValue] at hx
        subst hx; exact ⟨_, rfl, le_refl _⟩
      · simp [specMergeLeft, endpointValue, h, lt_asymm h] at hx
        subst hx; exact ⟨a, rfl, le_of_lt h⟩

theorem specMergeLeft_value_right (l lo : Endpoint α) (x : α)
    (hx : endpointValue (specMergeLeft l lo) = some x) :
    ∃ b, endpointValue lo = some b ∧ x ≤ b := by
  cases l with
  | Unbounded => simp [specMergeLeft, endpointValue] at hx
  | Open a =>
    cases lo with
    | Unbounded => simp [specMergeLeft, endpointValue] at hx
    | Open b =>
      rcases lt_trichotomy a b with h | h | h
      · simp [specMergeLeft, endpointValue, h, lt_asymm h] at hx
        subst hx; exact ⟨b, rfl, le_of_lt h⟩
      · subst h
        simp [specMergeLeft, endpointValue] at hx
        subst hx; exact ⟨_, rfl, le_refl _⟩
      · simp [specMergeLeft, endpointValue, h, lt_asymm h] at hx
        subst hx; exact ⟨_, rfl, le_refl _⟩
    | Closed b =>
      rcases lt_trichotomy a b with h | h | h
      · simp [specMergeLeft, endpointValue, h, lt_asymm h] at hx
        subst hx; exact ⟨b, rfl, le_of_lt h⟩
      · subst h
        simp [specMergeLeft, endpointValue] at hx
        subst hx; exact ⟨_, rfl, le_refl _⟩
      · simp [specMergeLeft, endpointValue, h, lt_asymm h] at hx
        subst hx; exact ⟨_, rfl, le_refl _⟩
  | Closed a =>
    cases lo with
    | Unbounded => simp [specMergeLeft, endpointValue] at hx
    | Open b =>
      rcases lt_trichotomy a b with h | h | h
      · simp [specMergeLeft, endpointValue, h, lt_asymm h] at hx
        subst hx; exact ⟨b, rfl, le_of_lt h⟩
      · subst h
        simp [specMergeLeft, endpointValue] at hx
        subst hx; exact ⟨_, rfl, le_refl _⟩
      · simp [specMergeLeft, endpointValue, h, lt_asymm h] at hx
        subst hx; exact ⟨_, rfl, le_refl _⟩
    | Closed b =>
      rcases lt_trichotomy a b with h | h | h
      · simp [specMergeLeft, endpointValue, h, lt_asymm h] at hx
        subst hx; exact ⟨b, rfl, le_of_lt h⟩
      · subst h
        simp [specMergeLeft, endpointValue] at hx
        subst hx; exact ⟨_, rfl, le_refl _⟩
      · simp [specMergeLeft, endpointValue, h, lt_asymm h] at hx
        subst hx; exact ⟨_, rfl, le_refl _⟩

theorem specMergeLeft_open_src (l lo : Endpoint α) (x : α)
    (hx : specMergeLeft l lo = Endpoint.Open x) :
    l = Endpoint.Open x ∨ lo = Endpoint.Open x := by
  cases l with
  | Unbounded => simp [specMergeLeft] at hx
  | Open a =>
    cases lo with
    | Unbounded => simp [specMergeLeft] at hx
    | Open b =>
      rcases lt_trichotomy a b with h | h | h
      · simp [specMergeLeft, h, lt_asymm h] at hx
        subst hx; exact Or.inl rfl
      · subst h
        simp [specMergeLeft] at hx
        subst hx; exact Or.inl rfl
      · simp [specMergeLeft, h, lt_asymm h] at hx
        subst hx; exact Or.inr rfl
    | Closed b =>
      rcases lt_trichotomy a b with h | h | h
      · simp [specMergeLeft, h, lt_asymm h] at hx
        subst hx; exact Or.inl rfl
      · subst h
        simp [specMergeLeft] at hx
      · simp [specMergeLeft, h, lt_asymm h] at hx
  | Closed a =>
    cases lo with
    | Unbounded => simp [specMergeLeft] at hx
    | Open b =>
      rcases lt_trichotomy a b with h | h | h
      · simp [specMergeLeft, h, lt_asymm h] at hx
      · subst h
        simp [specMergeLeft] at hx
      · simp [specMergeLeft, h, lt_asymm h] at hx
        subst hx; exact Or.inr rfl
    | Closed b =>
      rcases lt_trichotomy a b with h | h | h
      · simp [specMergeLeft, h, lt_asymm h] at hx
      · subst h
        simp [specMergeLeft] at hx
      · simp [specMergeLeft, h, lt_asymm h] at hx

theorem specMergeRight_value_left (r ro : Endpoint α) (y : α)
    (hy : endpointValue (specMergeRight r ro) = some y) :
    ∃ b, endpointValue r = some b ∧ b ≤ y := by
  cases r with
  | Unbounded => simp [specMergeRight, endpointValue] at hy
  | Open a =>
    cases ro with
    | Unbounded => simp [specMergeRight, endpointValue] at hy
    | Open b =>
      rcases lt_trichotomy a b with h | h | h
      · simp [specMergeRight, endpointValue, h, lt_asymm h] at hy
        subst hy; exact ⟨a, rfl, le_of_lt h⟩
      · subst h
        simp [specMergeRight, endpointValue] at hy
        subst hy; exact ⟨_, rfl, le_refl _⟩
      · simp [specMergeRight, endpointValue, h, lt_asymm h] at hy
        subst hy; exact ⟨_, rfl, le_refl _⟩
    | Closed b =>
      rcases lt_trichotomy a b with h | h | h
      · simp [specMergeRight, endpointValue, h, lt_asymm h] at hy
        subst hy; exact ⟨a, rfl, le_of_lt h⟩
      · subst h
        simp [specMergeRight, endpointValue] at hy
        subst hy; exact ⟨_, rfl, le_refl _⟩
      · simp [specMergeRight, endpointValue, h, lt_asymm h] at hy
        subst hy; exact ⟨_, rfl, le_refl _⟩
  | Closed a =>
    cases ro with
    | Unbounded => simp [specMergeRight, endpointValue] at hy
    | Open b =>
      rcases lt_trichotomy a b with h | h | h
      · simp [specMergeRight, endpointValue, h, lt_asymm h] at hy
        subst hy; exact ⟨a, rfl, le_of_lt h⟩
      · subst h
        simp [specMergeRight, endpointValue] at hy
        subst hy; exact ⟨_, rfl, le_refl _⟩
      · simp [specMergeRight, endpointValue, h, lt_asymm h] at hy
        subst hy; exact ⟨_, rfl, le_refl _⟩
    | Closed b =>
      rcases lt_trichotomy a b with h | h | h
      · simp [specMergeRight, endpointValue, h, lt_asymm h] at hy
        subst hy; exact ⟨a, rfl, le_of_lt h⟩
      · subst h
        simp [specMergeRight, endpointValue] at hy
        subst hy; exact ⟨_, rfl, le_refl _⟩
      · simp [specMergeRight, endpointValue, h, lt_asymm h] at hy
        subst hy; exact ⟨_, rfl, le_refl _⟩

theorem specMergeRight_value_right (r ro : Endpoint α) (y : α)
    (hy : endpointValue (specMergeRight r ro) = some y) :
    ∃ b, endpointValue ro = some b ∧ b ≤ y := by
  cases r with
  | Unbounded => simp [specMergeRight, endpointValue] at hy
  | Open a =>
    cases ro with
    | Unbounded => simp [specMergeRight, endpointValue] at hy
    | Open b =>
      rcases lt_trichotomy a b with h | h | h
      · simp [specMergeRight, endpointValue, h, lt_asymm h] at hy
        subst hy; exact ⟨_, rfl, le_refl _⟩
      · subst h
        simp [specMergeRight, endpointValue] at hy
        subst hy; exact ⟨_, rfl, le_refl _⟩
      · simp [specMergeRight, endpointValue, h, lt_asymm h] at hy
        subst hy; exact ⟨b, rfl, le_of_lt h⟩
    | Closed b =>
      rcases lt_trichotomy a b with h | h | h
      · simp [specMergeRight, endpointValue, h, lt_asymm h] at hy
        subst hy; exact ⟨_, rfl, le_refl _⟩
      · subst h
        simp [specMergeRight, endpointValue] at hy
        subst hy; exact ⟨_, rfl, le_refl _⟩
      · simp [specMergeRight, endpointValue, h, lt_asymm h] at hy
        subst hy; exact ⟨b, rfl, le_of_lt h⟩
  | Closed a =>
    cases ro with
    | Unbounded => simp [specMergeRight, endpointValue] at hy
    | Open b =>
      rcases lt_trichotomy a b with h | h | h
      · simp [specMergeRight, endpointValue, h, lt_asymm h] at hy
        subst hy; exact ⟨_, rfl, le_refl _⟩
      · subst h
        simp [specMergeRight, endpointValue] at hy
        subst hy; exact ⟨_, rfl, le_refl _⟩
      · simp [specMergeRight, endpointValue, h, lt_asymm h] at hy
        subst hy; exact ⟨b, rfl, le_of_lt h⟩
    | Closed b =>
      rcases lt_trichotomy a b with h | h | h
      · simp [specMergeRight, endpointValue, h, lt_asymm h] at hy
        subst hy; exact ⟨_, rfl, le_refl _⟩
      · subst h
        simp [specMergeRight, endpointValue] at hy
        subst hy; exact ⟨_, rfl, le_refl _⟩
      · simp [specMergeRight, endpointValue, h, lt_asymm h] at hy
        subst hy; exact ⟨b, rfl, le_of_lt h⟩

theorem specMergeRight_open_src (r ro : Endpoint α) (y : α)
    (hy : specMergeRight r ro = Endpoint.Open y) :
    r = Endpoint.Open y ∨ ro = Endpoint.Open y := by
  cases r with
  | Unbounded => simp [specMergeRight] at hy
  | Open a =>
    cases ro with
    | Unbounded => simp [specMergeRight] at hy
    | Open b =>
      rcases lt_trichotomy a b with h | h | h
      · simp [specMergeRight, h, lt_asymm h] at hy
        subst hy; exact Or.inr rfl
      · subst h
        simp [specMergeRight] at hy
        subst hy; exact Or.inl rfl
      · simp [specMergeRight, h, lt_asymm h] at hy
        subst hy; exact Or.inl rfl
    | Closed b =>
      rcases lt_trichotomy a b with h | h | h
      · simp [specMergeRight, h, lt_asymm h] at hy
      · subst h
        simp [specMergeRight] at hy
      · simp [specMergeRight, h, lt_asymm h] at hy
        subst hy; exact Or.inl rfl
  | Closed a =>
    cases ro with
    | Unbounded => simp [specMergeRight] at hy
    | Open b =>
      rcases lt_trichotomy a b with h | h | h
      · simp [specMergeRight, h, lt_asymm h] at hy
        subst hy; exact Or.inr rfl
      · subst h
        simp [specMergeRight] at hy
      · simp [specMergeRight, h, lt_asymm h] at hy
    | Closed b =>
      rcases lt_trichotomy a b with h | h | h
      · simp [specMergeRight, h, lt_asymm h] at hy
      · subst h
        simp [specMergeRight] at hy
      · simp [specMergeRight, h, lt_asymm h] at hy

end HullFacts

section ValidityFacts

variable {α : Type} [LinearOrder α]

theorem new_ok_char (l r : Endpoint α)
    (hok : exceptIsOk (Interval.new (linCmp α) l r) = true)
    (a b : α) (ha : endpointValue l = some a) (hb : endpointValue r = some b) :
    a < b ∨ (a ≤ b ∧ l = Endpoint.Closed a ∧ r = Endpoint.Closed b) := by
  cases l with
  | Unbounded => simp [endpointValue] at ha
  | Open la =>
    cases r with
    | Unbounded => simp [endpointValue] at hb
    | Open rb =>
      simp [endpointValue] at ha hb
      subst ha; subst hb
      by_cases hab : la < rb
      · exact Or.inl hab
      · simp [Interval.new, exceptIsOk, pcLt_linCmp, hab] at hok
    | Closed rb =>
      simp [endpointValue] at ha hb
      subst ha; subst hb
      by_cases hab : la < rb
      · exact Or.inl hab
      · simp [Interval.new, exceptIsOk, pcLt_linCmp, hab] at hok
  | Closed la =>
    cases r with
    | Unbounded => simp [endpointValue] at hb
    | Open rb =>
      simp [endpointValue] at ha hb
      subst ha; subst hb
      by_cases hab : la < rb
      · exact Or.inl hab
      · simp [Interval.new, exceptIsOk, pcLt_linCmp, hab] at hok
    | Closed rb =>
      simp [endpointValue] at ha hb
      subst ha; subst hb
      by_cases hab : la ≤ rb
      · rcases lt_or_eq_of_le hab with h | h
        · exact Or.inl h
        · exact Or.inr ⟨hab, rfl, rfl⟩
      · simp [Interval.new, exceptIsOk, pcLe_linCmp, hab] at hok

theorem new_ok_le {l r : Endpoint α} {a b : α}
    (hok : exceptIsOk (Interval.new (linCmp α) l r) = true)
    (ha : endpointValue l = some a) (hb : endpointValue r = some b) : a ≤ b := by
  rcases new_ok_char l r hok a b ha hb with h | h
  · exact le_of_lt h
  · exact h.1

theorem new_ok_lt_left {l r : Endpoint α} {a b : α}
    (hok : exceptIsOk (Interval.new (linCmp α) l r) = true)
    (ha : l = Endpoint.Open a) (hb : endpointValue r = some b) : a < b := by
  have hav : endpointValue l = some a := by rw [ha]; rfl
  rcases new_ok_char l r hok a b hav hb with h | h
  · exact h
  · rw [ha] at h
    simp at h

theorem new_ok_lt_right {l r : Endpoint α} {a b : α}
    (hok : exceptIsOk (Interval.new (linCmp α) l r) = true)
    (ha : endpointValue l = some a) (hb : r = Endpoint.Open b) : a < b := by
  have hbv : endpointValue r = some b := by rw [hb]; rfl
  rcases new_ok_char l r hok a b ha hbv with h | h
  · exact h
  · rw [hb] at h
    simp at h

theorem hull_lt_of_open_left (A B : Interval α)
    (hA : exceptIsOk (Interval.new (linCmp α) A.left A.right) = true)
    (hB : exceptIsOk (Interval.new (linCmp α) B.left B.right) = true)
    {x y : α} (hm : specMergeLeft A.left B.left = Endpoint.Open x)
    (hMv : endpointValue (specMergeRight A.right B.right) = some y) : x < y := by
  rcases specMergeLeft_open_src A.left B.left x hm with hl | hl
  · rcases specMergeRight_value_left A.right B.right y hMv with ⟨b, hb, hby⟩
    exact lt_of_lt_of_le (new_ok_lt_left hA hl hb) hby
  · rcases specMergeRight_value_right A.right B.right y hMv with ⟨b, hb, hby⟩
    exact lt_of_lt_of_le (new_ok_lt_left hB hl hb) hby

theorem hull_lt_of_open_right (A B : Interval α)
    (hA : exceptIsOk (Interval.new (linCmp α) A.left A.right) = true)
    (hB : exceptIsOk (Interval.new (linCmp α) B.left B.right) = true)
    {x y : α} (hmv : endpointValue (specMergeLeft A.left B.left) = some x)
    (hM : specMergeRight A.right B.right = Endpoint.Open y) : x < y := by
  rcases specMergeRight_open_src A.right B.right y hM with hr | hr
  · rcases specMergeLeft_value_left A.left B.left x hmv with ⟨a, ha, hxa⟩
    exact lt_of_le_of_lt hxa (new_ok_lt_right hA ha hr)
  · rcases specMergeLeft_value_right A.left B.left x hmv with ⟨a, ha, hxa⟩
    exact lt_of_le_of_lt hxa (new_ok_lt_right hB ha hr)

theorem hull_le (A B : Interval α)
    (hA : exceptIsOk (Interval.new (linCmp α) A.left A.right) = true)
    {x y : α} (hmv : endpointValue (specMergeLeft A.left B.left) = some x)
    (hMv : endpointValue (specMergeRight A.right B.right) = some y) : x ≤ y := by
  rcases specMergeLeft_value_left A.left B.left x hmv with ⟨a, ha, hxa⟩
  rcases specMergeRight_value_left A.right B.right y hMv with ⟨b, hb, hby⟩
  exact le_trans hxa (le_trans (new_ok_le hA ha hb) hby)

theorem hull_valid (A B : Interval α)
    (hA : exceptIsOk (Interval.new (linCmp α) A.left A.right) = true)
    (hB : exceptIsOk (Interval.new (linCmp α) B.left B.right) = true) :
    exceptIsOk (Interval.new (linCmp α)
      (specMergeLeft A.left B.left) (specMergeRight A.right B.right)) = true := by
  cases hm : specMergeLeft A.left B.left with
  | Unbounded => simp [Interval.new, exceptIsOk]
  | Open x =>
    cases hM : specMergeRight A.right B.right with
    | Unbounded => simp [Interval.new, exceptIsOk]
    | Open y =>
      have hlt : x < y :=
        hull_lt_of_open_left A B hA hB hm (by rw [hM]; rfl)
      simp [Interval.new, exceptIsOk, pcLt_linCmp, hlt]
    | Closed y =>
      have hlt : x < y :=
        hull_lt_of_open_left A B hA hB hm (by rw [hM]; rfl)
      simp [Interval.new, exceptIsOk, pcLt_linCmp, hlt]
  | Closed x =>
    cases hM : specMergeRight A.right B.right with
    | Unbounded => simp [Interval.new, exceptIsOk]
    | Open y =>
      have hlt : x < y :=
        hull_lt_of_open_right A B hA hB (by rw [hm]; rfl) hM
      simp [Interval.new, exceptIsOk, pcLt_linCmp, hlt]
    | Closed y =>
      have hle : x ≤ y :=
        hull_le A B hA (by rw [hm]; rfl) (by rw [hM]; rfl)
      simp [Interval.new, exceptIsOk, pcLe_linCmp, hle]

theorem merge_ok_spec (A B : Interval α)
    (hs : Interval.is_separated_from (linCmp α) A B = false) :
    Interval.merge (linCmp α) A B =
      Except.ok ⟨specMergeLeft A.left B.left, specMergeRight A.right B.right⟩ := by
  unfold Interval.merge
  rw [hs, smaller_left_eq_spec, greater_right_eq_spec]
  simp

end ValidityFacts

/-- Comparison on `Bool` in which the two distinct elements are incomparable
(a NaN-like domain): a legal Rust `partial_cmp` of a genuinely partial order. -/
def flatCmp : Bool → Bool → Option Ordering := fun a b =>
  if a = b then some Ordering.eq else none

/-- C1: for all intervals A and B, `A.merge(B)` returns
`Err(MergeSeparatedIntervals)` iff `A.is_separated_from(B)`; when the two are
not separated, `merge` returns `Ok` with an interval. -/
theorem C1_merge_err_iff_separated {α : Type} (c : α → α → Option Ordering)
    (A B : Interval α) :
    (Interval.merge c A B = Except.error IntervalSetError.MergeSeparatedIntervals ↔
      Interval.is_separated_from c A B = true) ∧
    (Interval.is_separated_from c A B = false →
      ∃ I, Interval.merge c A B = Except.ok I) := by
  cases h : Interval.is_separated_from c A B with
  | true =>
    exact ⟨by simp [Interval.merge, h], fun hf => absurd hf (by simp)⟩
  | false =>
    refine ⟨by simp [Interval.merge, h], fun hf => ?_⟩
    exact ⟨⟨Interval.smaller_left_endpoint c A B, Interval.greater_right_endpoint c A B⟩,
      by simp [Interval.merge, h]⟩

/-- Witness for C1 at concrete inputs over `Int`. -/
theorem C1_witness :
    (Interval.merge (linCmp Int) ⟨Endpoint.Open 0, Endpoint.Open 1⟩
        ⟨Endpoint.Open 1, Endpoint.Open 2⟩ =
      Except.error IntervalSetError.MergeSeparatedIntervals ↔
      Interval.is_separated_from (linCmp Int) ⟨Endpoint.Open 0, Endpoint.Open 1⟩
        ⟨Endpoint.Open 1, Endpoint.Open 2⟩ = true) ∧
    ∃ I, Interval.merge (linCmp Int) ⟨Endpoint.Open 0, Endpoint.Open 1⟩
        ⟨Endpoint.Closed 1, Endpoint.Closed 2⟩ = Except.ok I := by
  constructor
  · exact (C1_merge_err_iff_separated (linCmp Int) ⟨Endpoint.Open 0, Endpoint.Open 1⟩
      ⟨Endpoint.Open 1, Endpoint.Open 2⟩).1
  · exact (C1_merge_err_iff_separated (linCmp Int) ⟨Endpoint.Open 0, Endpoint.Open 1⟩
      ⟨Endpoint.Closed 1, Endpoint.Closed 2⟩).2 (by decide)

/-- C2: separation is symmetric over a totally ordered domain:
`A.is_separated_from(B) == B.is_separated_from(A)`. -/
theorem C2_separation_symm {α : Type} [LinearOrder α] (A B : Interval α) :
    Interval.is_separated_from (linCmp α) A B =
      Interval.is_separated_from (linCmp α) B A :=
  sep_symm A B

/-- C3: `open(a,b)` succeeds iff `a < b`; `closed(a,b)` succeeds iff `a <= b`;
`open_closed`/`closed_open` succeed iff `a < b`; `closed(5,5)` succeeds with a
degenerate interval; `open(5,5)` is `Err(InvalidInterval)`. -/
theorem C3_constructor_validation {α : Type} [LinearOrder α] :
    (∀ a b : α, exceptIsOk (Interval.«open» (linCmp α) a b) = true ↔ a < b) ∧
    (∀ a b : α, exceptIsOk (Interval.closed (linCmp α) a b) = true ↔ a ≤ b) ∧
    (∀ a b : α, exceptIsOk (Interval.open_closed (linCmp α) a b) = true ↔ a < b) ∧
    (∀ a b : α, exceptIsOk (Interval.closed_open (linCmp α) a b) = true ↔ a < b) ∧
    (Interval.closed (linCmp Int) 5 5 =
        Except.ok ⟨Endpoint.Closed 5, Endpoint.Closed 5⟩ ∧
      Interval.is_degenerate (linCmp Int) ⟨Endpoint.Closed 5, Endpoint.Closed 5⟩ = true) ∧
    Interval.«open» (linCmp Int) 5 5 = Except.error IntervalSetError.InvalidInterval := by
  refine ⟨fun a b => ?_, fun a b => ?_, fun a b => ?_, fun a b => ?_,
    ⟨by decide, by decide⟩, by decide⟩
  · by_cases h : a < b <;> simp [Interval.«open», exceptIsOk, pcLt_linCmp, h]
  · by_cases h : a ≤ b <;> simp [Interval.closed, exceptIsOk, pcLe_linCmp, h]
  · by_cases h : a < b <;> simp [Interval.open_closed, exceptIsOk, pcLt_linCmp, h]
  · by_cases h : a < b <;> simp [Interval.closed_open, exceptIsOk, pcLt_linCmp, h]

/-- C4: for non-separated intervals A and B, `A.merge(B)` is `Ok` with left
endpoint combined by the rule "Unbounded dominates; smaller value wins; on a
value tie Closed wins over Open" and right endpoint combined by the mirrored
rule ("Unbounded dominates; larger value wins; on a tie Closed wins"). -/
theorem C4_merge_endpoints {α : Type} [LinearOrder α] (A B : Interval α)
    (hs : Interval.is_separated_from (linCmp α) A B = false) :
    Interval.merge (linCmp α) A B =
      Except.ok ⟨specMergeLeft A.left B.left, specMergeRight A.right B.right⟩ :=
  merge_ok_spec A B hs

/-- Witness for C4 at a concrete input over `Int`. -/
theorem C4_witness :
    Interval.merge (linCmp Int) ⟨Endpoint.Open 0, Endpoint.Open 1⟩
        ⟨Endpoint.Closed 1, Endpoint.Closed 2⟩ =
      Except.ok ⟨Endpoint.Open 0, Endpoint.Closed 2⟩ ∧
    specMergeLeft (Endpoint.Open (0 : Int)) (Endpoint.Closed 1) = Endpoint.Open 0 ∧
    specMergeRight (Endpoint.Open (1 : Int)) (Endpoint.Closed 2) = Endpoint.Closed 2 := by
  refine ⟨?_, by decide, by decide⟩
  rw [C4_merge_endpoints ⟨Endpoint.Open 0, Endpoint.Open 1⟩
    ⟨Endpoint.Closed 1, Endpoint.Closed 2⟩ (by decide)]
  decide

/-- C5: the interval produced by merging two valid non-separated intervals
satisfies the construction invariant: `Interval::new` applied to its endpoint
pair succeeds. -/
theorem C5_merge_result_valid {α : Type} [LinearOrder α] (A B : Interval α)
    (hA : exceptIsOk (Interval.new (linCmp α) A.left A.right) = true)
    (hB : exceptIsOk (Interval.new (linCmp α) B.left B.right) = true)
    (hs : Interval.is_separated_from (linCmp α) A B = false)
    (I : Interval α) (hI : Interval.merge (linCmp α) A B = Except.ok I) :
    exceptIsOk (Interval.new (linCmp α) I.left I.right) = true := by
  rw [merge_ok_spec A B hs] at hI
  injection hI with h
  subst h
  exact hull_valid A B hA hB

/-- Witness for C5 at a concrete input over `Int`. -/
theorem C5_witness :
    exceptIsOk (Interval.new (linCmp Int) (Endpoint.Open 0) (Endpoint.Closed 2)) = true := by
  have h := C5_merge_result_valid ⟨Endpoint.Open 0, Endpoint.Open 1⟩
    ⟨Endpoint.Closed 1, Endpoint.Closed 2⟩ (by decide) (by decide) (by decide)
    ⟨Endpoint.Open 0, Endpoint.Closed 2⟩ (by decide)
  exact h

/-- C7: the four concrete separation verdicts: `open(0,1)` vs `open(1,2)` are
separated; `open(0,1)` vs `closed_open(1,2)` are not; `unbounded_open(0)` vs
`open_unbounded(0)` are separated; `unbounded_open(0)` vs `closed_unbounded(0)`
are not. -/
theorem C7_separation_examples :
    Interval.«open» (linCmp Int) 0 1 = Except.ok ⟨Endpoint.Open 0, Endpoint.Open 1⟩ ∧
    Interval.«open» (linCmp Int) 1 2 = Except.ok ⟨Endpoint.Open 1, Endpoint.Open 2⟩ ∧
    Interval.closed_open (linCmp Int) 1 2 =
      Except.ok ⟨Endpoint.Closed 1, Endpoint.Open 2⟩ ∧
    Interval.is_separated_from (linCmp Int) ⟨Endpoint.Open 0, Endpoint.Open 1⟩
      ⟨Endpoint.Open 1, Endpoint.Open 2⟩ = true ∧
    Interval.is_separated_from (linCmp Int) ⟨Endpoint.Open 0, Endpoint.Open 1⟩
      ⟨Endpoint.Closed 1, Endpoint.Open 2⟩ = false ∧
    Interval.is_separated_from (linCmp Int) (Interval.unbounded_open 0)
      (Interval.open_unbounded 0) = true ∧
    Interval.is_separated_from (linCmp Int) (Interval.unbounded_open 0)
      (Interval.closed_unbounded 0) = false := by
  decide

/-- C8 counterexample: over a domain with incomparable values (every comparison
between `false` and `true` is `none`, so `<`, `<=`, `>`, `>=` all return false),
the validating constructors do NOT silently return an interval: each rejects
with `InvalidInterval`. -/
theorem C8_counterexample :
    flatCmp false true = none ∧
    flatCmp true false = none ∧
    Interval.«open» flatCmp false true = Except.error IntervalSetError.InvalidInterval ∧
    Interval.closed flatCmp false true = Except.error IntervalSetError.InvalidInterval ∧
    Interval.open_closed flatCmp false true =
      Except.error IntervalSetError.InvalidInterval ∧
    Interval.closed_open flatCmp false true =
      Except.error IntervalSetError.InvalidInterval := by
  decide

/-- C8 amended: when the two supplied bound values are incomparable, the
validating constructors reject the construction with `InvalidInterval`
(the `low < high` / `low <= high` guard fails because every comparison
returns false). -/
theorem C8_amended_incomparable_rejected {α : Type} (c : α → α → Option Ordering)
    (a b : α) (h : c a b = none) :
    Interval.«open» c a b = Except.error IntervalSetError.InvalidInterval ∧
    Interval.closed c a b = Except.error IntervalSetError.InvalidInterval ∧
    Interval.open_closed c a b = Except.error IntervalSetError.InvalidInterval ∧
    Interval.closed_open c a b = Except.error IntervalSetError.InvalidInterval := by
  have hlt : pcLt c a b = false := by simp [pcLt, h]
  have hle : pcLe c a b = false := by simp [pcLe, h]
  simp [Interval.«open», Interval.closed, Interval.open_closed, Interval.closed_open,
    hlt, hle]

/-- Witness for the amended C8 at the concrete incomparable pair of `flatCmp`. -/
theorem C8_witness :
    Interval.«open» flatCmp false true = Except.error IntervalSetError.InvalidInterval ∧
    Interval.closed flatCmp false true = Except.error IntervalSetError.InvalidInterval ∧
    Interval.open_closed flatCmp false true =
      Except.error IntervalSetError.InvalidInterval ∧
    Interval.closed_open flatCmp false true =
      Except.error IntervalSetError.InvalidInterval :=
  C8_amended_incomparable_rejected flatCmp false true (by decide)

/-- C9: Display renders `closed(0,0)` as the collapsed form "[0]" and
`open_unbounded(0)` as "(0, +∞)". -/
theorem C9_display_examples :
    Interval.closed (linCmp Int) 0 0 =
      Except.ok ⟨Endpoint.Closed 0, Endpoint.Closed 0⟩ ∧
    Interval.display (linCmp Int) (fun n : Int => toString n)
      ⟨Endpoint.Closed 0, Endpoint.Closed 0⟩ = "[0]" ∧
    Interval.display (linCmp Int) (fun n : Int => toString n)
      (Interval.open_unbounded 0) = "(0, +∞)" := by
  refine ⟨by decide, ?_, ?_⟩ <;> rfl

/-- C10: merge is commutative over a totally ordered domain: `A.merge(B)` and
`B.merge(A)` are equal as results — both the same error, or both `Ok` with
structurally equal intervals. -/
theorem C10_merge_comm {α : Type} [LinearOrder α] (A B : Interval α) :
    Interval.merge (linCmp α) A B = Interval.merge (linCmp α) B A :=
  merge_comm A B

/-- Interval set struct of `src/collections/interval_set/mod.rs`:
an ordered sequence of intervals. -/
structure IntervalSet (α : Type) where
  intervals : List (Interval α)

/-- Modelled from the spec: the fold step of the set-level union.  The bodies of
`IntervalSet::union`/`intersection` are unimplemented stubs in the source, so
the §4.3 algorithm is modelled here: the incoming interval is folded together
with the already-located merge candidates via repeated `merge`. -/
def mergeAll {α : Type} (c : α → α → Option Ordering) :
    Interval α → List (Interval α) → Except IntervalSetError (Interval α)
  | acc, [] => Except.ok acc
  | acc, i :: rest =>
    match Interval.merge c acc i with
    | Except.ok m => mergeAll c m rest
    | Except.error e => Except.error e

/-- Modelled from the spec: single-interval insertion for the set-level union
(missing from the source, whose `union` body is a stub).  Per §4.3 it locates
the stored intervals not separated from the incoming interval, folds them
together with it via repeated `merge`, and splices the single merged interval
in place of that run, keeping the separated intervals on their sides. -/
def IntervalSet.insertInterval {α : Type} (c : α → α → Option Ordering)
    (s : IntervalSet α) (n : Interval α) : Except IntervalSetError (IntervalSet α) :=
  match mergeAll c n
      (s.intervals.filter (fun i => !(Interval.is_separated_from c n i))) with
  | Except.ok m =>
    Except.ok ⟨(s.intervals.filter
        (fun i => Interval.is_other_separated_from_this_to_the_left c n i)) ++
      m :: (s.intervals.filter
        (fun i => Interval.is_other_separated_from_this_to_the_right c n i))⟩
  | Except.error e => Except.error e

/-- Modelled from the spec: union of two sets folds every interval of the
second set into the first via repeated single-interval insertion (§4.3). -/
def unionFold {α : Type} (c : α → α → Option Ordering) :
    IntervalSet α → List (Interval α) → Except IntervalSetError (IntervalSet α)
  | s, [] => Except.ok s
  | s, n :: rest =>
    match IntervalSet.insertInterval c s n with
    | Except.ok s2 => unionFold c s2 rest
    | Except.error e => Except.error e

/-- Modelled from the spec: `IntervalSet::union` (stub `todo!()` in the
source): fold the intervals of `t` into `s`. -/
def IntervalSet.union {α : Type} (c : α → α → Option Ordering)
    (s t : IntervalSet α) : Except IntervalSetError (IntervalSet α) :=
  unionFold c s t.intervals

/-- Modelled from the spec: the overlap of two intervals, defined when they are
not separated; its endpoints are the greater of the two left endpoints and the
lesser of the two right endpoints (the source provides `greater_left_endpoint`
and `less_right_endpoint` for exactly this).  Requesting the overlap of
separated intervals is the failure path that the set-level scan must avoid. -/
def overlapInterval {α : Type} (c : α → α → Option Ordering) (A B : Interval α) :
    Except IntervalSetError (Interval α) :=
  if Interval.is_separated_from c A B then
    Except.error IntervalSetError.MergeSeparatedIntervals
  else
    Except.ok ⟨Interval.greater_left_endpoint c A B, Interval.less_right_endpoint c A B⟩

/-- Modelled from the spec: the "smaller right endpoint" test that advances the
intersection scan — `Unbounded` is greatest, bounded endpoints compare by
value, and on a value tie an `Open` right endpoint is below a `Closed` one. -/
def rightEndpointLt {α : Type} (c : α → α → Option Ordering) :
    Endpoint α → Endpoint α → Bool
  | Endpoint.Unbounded, _ => false
  | _, Endpoint.Unbounded => true
  | Endpoint.Open a, Endpoint.Open b => pcLt c a b
  | Endpoint.Closed a, Endpoint.Closed b => pcLt c a b
  | Endpoint.Open a, Endpoint.Closed b => pcLe c a b
  | Endpoint.Closed a, Endpoint.Open b => pcLt c a b

/-- Modelled from the spec: the two-pointer intersection scan over both
ascending sequences (§4.3): at each step it tests separation first, emits the
overlap of the current pair only when they are not separated, and advances the
pointer whose interval has the smaller right endpoint (ties advance both). -/
def intersectLists {α : Type} (c : α → α → Option Ordering) :
    List (Interval α) → List (Interval α) →
      Except IntervalSetError (List (Interval α))
  | [], _ => Except.ok []
  | _ :: _, [] => Except.ok []
  | a :: as, b :: bs =>
    let rest :=
      if rightEndpointLt c a.right b.right then intersectLists c as (b :: bs)
      else if rightEndpointLt c b.right a.right then intersectLists c (a :: as) bs
      else intersectLists c as bs
    if Interval.is_separated_from c a b then rest
    else
      match overlapInterval c a b, rest with
      | Except.ok o, Except.ok r => Except.ok (o :: r)
      | Except.error e, _ => Except.error e
      | Except.ok _, Except.error e => Except.error e
termination_by s t => s.length + t.length

/-- Modelled from the spec: `IntervalSet::intersection` (stub `todo!()` in the
source): the two-pointer overlap scan. -/
def IntervalSet.intersection {α : Type} (c : α → α → Option Ordering)
    (s t : IntervalSet α) : Except IntervalSetError (IntervalSet α) :=
  match intersectLists c s.intervals t.intervals with
  | Except.ok l => Except.ok ⟨l⟩
  | Except.error e => Except.error e

section ExtensionOrder

variable {α : Type} [LinearOrder α]

/-- Order on left endpoints viewed as lower bounds: `Unbounded` is least, and
on a value tie `Closed` is below `Open`.  Proof-side helper. -/
def leftLeB : Endpoint α → Endpoint α → Bool
  | Endpoint.Unbounded, _ => true
  | _, Endpoint.Unbounded => false
  | Endpoint.Open a, Endpoint.Open b => decide (a ≤ b)
  | Endpoint.Closed a, Endpoint.Closed b => decide (a ≤ b)
  | Endpoint.Closed a, Endpoint.Open b => decide (a ≤ b)
  | Endpoint.Open a, Endpoint.Closed b => decide (a < b)

/-- Order on right endpoints viewed as upper bounds: `Unbounded` is greatest,
and on a value tie `Closed` is above `Open`.  Proof-side helper. -/
def rightGeB : Endpoint α → Endpoint α → Bool
  | Endpoint.Unbounded, _ => true
  | _, Endpoint.Unbounded => false
  | Endpoint.Open a, Endpoint.Open b => decide (b ≤ a)
  | Endpoint.Closed a, Endpoint.Closed b => decide (b ≤ a)
  | Endpoint.Closed a, Endpoint.Open b => decide (b ≤ a)
  | Endpoint.Open a, Endpoint.Closed b => decide (b < a)

theorem leftLeB_refl (e : Endpoint α) : leftLeB e e = true := by
  cases e <;> simp [leftLeB]

theorem rightGeB_refl (e : Endpoint α) : rightGeB e e = true := by
  cases e <;> simp [rightGeB]

theorem leftLeB_trans (e f g : Endpoint α) (h1 : leftLeB e f = true)
    (h2 : leftLeB f g = true) : leftLeB e g = true := by
  cases e <;> cases f <;> cases g <;>
    simp_all [leftLeB] <;>
    first
      | exact le_trans h1 h2
      | exact lt_of_le_of_lt h1 h2
      | exact lt_of_lt_of_le h1 h2
      | exact lt_trans h1 h2
      | exact le_of_lt (lt_of_lt_of_le h1 h2)
      | exact le_of_lt (lt_of_le_of_lt h1 h2)

theorem rightGeB_trans (e f g : Endpoint α) (h1 : rightGeB e f = true)
    (h2 : rightGeB f g = true) : rightGeB e g = true := by
  cases e <;> cases f <;> cases g <;>
    simp_all [rightGeB] <;>
    first
      | exact le_trans h2 h1
      | exact lt_of_le_of_lt h2 h1
      | exact lt_of_lt_of_le h2 h1
      | exact lt_trans h2 h1
      | exact le_of_lt (lt_of_lt_of_le h2 h1)
      | exact le_of_lt (lt_of_le_of_lt h2 h1)

theorem specMergeLeft_leftLe (e f : Endpoint α) :
    leftLeB (specMergeLeft e f) e = true := by
  cases e with
  | Unbounded => cases f <;> simp [specMergeLeft, leftLeB]
  | Open a =>
    cases f with
    | Unbounded => simp [specMergeLeft, leftLeB]
    | Open b =>
      rcases lt_trichotomy a b with h | h | h
      · simp [specMergeLeft, leftLeB, h, lt_asymm h]
      · subst h; simp [specMergeLeft, leftLeB]
      · simp [specMergeLeft, leftLeB, h, lt_asymm h, le_of_lt h]
    | Closed b =>
      rcases lt_trichotomy a b with h | h | h
      · simp [specMergeLeft, leftLeB, h, lt_asymm h]
      · subst h; simp [specMergeLeft, leftLeB]
      · simp [specMergeLeft, leftLeB, h, lt_asymm h, le_of_lt h]
  | Closed a =>
    cases f with
    | Unbounded => simp [specMergeLeft, leftLeB]
    | Open b =>
      rcases lt_trichotomy a b with h | h | h
      · simp [specMergeLeft, leftLeB, h, lt_asymm h]
      · subst h; simp [specMergeLeft, leftLeB]
      · simp [specMergeLeft, leftLeB, h, lt_asymm h, le_of_lt h]
    | Closed b =>
      rcases lt_trichotomy a b with h | h | h
      · simp [specMergeLeft, leftLeB, h, lt_asymm h]
      · subst h; simp [specMergeLeft, leftLeB]
      · simp [specMergeLeft, leftLeB, h, lt_asymm h, le_of_lt h]

theorem specMergeRight_rightGe (e f : Endpoint α) :
    rightGeB (specMergeRight e f) e = true := by
  cases e with
  | Unbounded => cases f <;> simp [specMergeRight, rightGeB]
  | Open a =>
    cases f with
    | Unbounded => simp [specMergeRight, rightGeB]
    | Open b =>
      rcases lt_trichotomy a b with h | h | h
      · simp [specMergeRight, rightGeB, h, lt_asymm h, le_of_lt h]
      · subst h; simp [specMergeRight, rightGeB]
      · simp [specMergeRight, rightGeB, h, lt_asymm h]
    | Closed b =>
      rcases lt_trichotomy a b with h | h | h
      · simp [specMergeRight, rightGeB, h, lt_asymm h, le_of_lt h]
      · subst h; simp [specMergeRight, rightGeB]
      · simp [specMergeRight, rightGeB, h, lt_asymm h]
  | Closed a =>
    cases f with
    | Unbounded => simp [specMergeRight, rightGeB]
    | Open b =>
      rcases lt_trichotomy a b with h | h | h
      · simp [specMergeRight, rightGeB, h, lt_asymm h, le_of_lt h]
      · subst h; simp [specMergeRight, rightGeB]
      · simp [specMergeRight, rightGeB, h, lt_asymm h]
    | Closed b =>
      rcases lt_trichotomy a b with h | h | h
      · simp [specMergeRight, rightGeB, h, lt_asymm h, le_of_lt h]
      · subst h; simp [specMergeRight, rightGeB]
      · simp [specMergeRight, rightGeB, h, lt_asymm h]

theorem otherSepLeft_mono (acc n i : Interval α)
    (hle : leftLeB acc.left n.left = true)
    (hs : Interval.is_other_separated_from_this_to_the_left (linCmp α) acc i = true) :
    Interval.is_other_separated_from_this_to_the_left (linCmp α) n i = true := by
  rcases acc with ⟨e, r⟩
  rcases n with ⟨f, rn⟩
  rcases i with ⟨il, ir⟩
  cases e <;> cases f <;> cases ir <;>
    simp_all [Interval.is_other_separated_from_this_to_the_left, leftLeB,
      pcGe_linCmp, pcGt_linCmp] <;>
    first
      | exact le_trans hs hle
      | exact lt_of_le_of_lt hs hle
      | exact lt_of_lt_of_le hs hle
      | exact lt_trans hs hle
      | exact le_of_lt (lt_of_lt_of_le hs hle)

theorem otherSepRight_mono (acc n i : Interval α)
    (hge : rightGeB acc.right n.right = true)
    (hs : Interval.is_other_separated_from_this_to_the_right (linCmp α) acc i = true) :
    Interval.is_other_separated_from_this_to_the_right (linCmp α) n i = true := by
  rcases acc with ⟨l, e⟩
  rcases n with ⟨ln, f⟩
  rcases i with ⟨il, ir⟩
  cases e <;> cases f <;> cases il <;>
    simp_all [Interval.is_other_separated_from_this_to_the_right, rightGeB,
      pcLe_linCmp, pcLt_linCmp] <;>
    first
      | exact le_trans hge hs
      | exact lt_of_le_of_lt hge hs
      | exact lt_of_lt_of_le hge hs
      | exact lt_trans hge hs
      | exact le_of_lt (lt_of_lt_of_le hge hs)
      | exact le_of_lt (lt_of_le_of_lt hge hs)

theorem sep_mono (acc n i : Interval α)
    (hl : leftLeB acc.left n.left = true) (hr : rightGeB acc.right n.right = true)
    (hs : Interval.is_separated_from (linCmp α) acc i = true) :
    Interval.is_separated_from (linCmp α) n i = true := by
  unfold Interval.is_separated_from at hs ⊢
  rcases Bool.or_eq_true_iff.mp hs with h | h
  · exact Bool.or_eq_true_iff.mpr (Or.inl (otherSepLeft_mono acc n i hl h))
  · exact Bool.or_eq_true_iff.mpr (Or.inr (otherSepRight_mono acc n i hr h))

end ExtensionOrder

section SetOpsTotal

variable {α : Type} [LinearOrder α]

theorem mergeAll_ok (n : Interval α) (l : List (Interval α)) (acc : Interval α)
    (hacc_l : leftLeB acc.left n.left = true)
    (hacc_r : rightGeB acc.right n.right = true)
    (hl : ∀ i ∈ l, Interval.is_separated_from (linCmp α) n i = false) :
    ∃ m, mergeAll (linCmp α) acc l = Except.ok m := by
  induction l generalizing acc with
  | nil => exact ⟨acc, rfl⟩
  | cons i rest ih =>
    have hsep : Interval.is_separated_from (linCmp α) acc i = false := by
      cases hb : Interval.is_separated_from (linCmp α) acc i
      · rfl
      · have hn := sep_mono acc n i hacc_l hacc_r hb
        rw [hl i (List.mem_cons_self i rest)] at hn
        cases hn
    have hmerge : Interval.merge (linCmp α) acc i =
        Except.ok ⟨specMergeLeft acc.left i.left, specMergeRight acc.right i.right⟩ :=
      merge_ok_spec acc i hsep
    have h1 : leftLeB (specMergeLeft acc.left i.left) n.left = true :=
      leftLeB_trans _ _ _ (specMergeLeft_leftLe acc.left i.left) hacc_l
    have h2 : rightGeB (specMergeRight acc.right i.right) n.right = true :=
      rightGeB_trans _ _ _ (specMergeRight_rightGe acc.right i.right) hacc_r
    rcases ih ⟨specMergeLeft acc.left i.left, specMergeRight acc.right i.right⟩ h1 h2
      (fun j hj => hl j (List.mem_cons_of_mem i hj)) with ⟨m, hm⟩
    exact ⟨m, by simp [mergeAll, hmerge, hm]⟩

theorem insertInterval_ok (s : IntervalSet α) (n : Interval α) :
    ∃ u, IntervalSet.insertInterval (linCmp α) s n = Except.ok u := by
  have hcand : ∀ i ∈ s.intervals.filter
      (fun i => !(Interval.is_separated_from (linCmp α) n i)),
      Interval.is_separated_from (linCmp α) n i = false := by
    intro i hi
    have hmem := List.of_mem_filter hi
    simpa using hmem
  rcases mergeAll_ok n
    (s.intervals.filter (fun i => !(Interval.is_separated_from (linCmp α) n i))) n
    (leftLeB_refl n.left) (rightGeB_refl n.right) hcand with ⟨m, hm⟩
  refine ⟨⟨(s.intervals.filter
      (fun i => Interval.is_other_separated_from_this_to_the_left (linCmp α) n i)) ++
    m :: (s.intervals.filter
      (fun i => Interval.is_other_separated_from_this_to_the_right (linCmp α) n i))⟩, ?_⟩
  simp [IntervalSet.insertInterval, hm]

theorem unionFold_ok (t : List (Interval α)) (s : IntervalSet α) :
    ∃ u, unionFold (linCmp α) s t = Except.ok u := by
  induction t generalizing s with
  | nil => exact ⟨s, rfl⟩
  | cons n rest ih =>
    rcases insertInterval_ok s n with ⟨s2, hs2⟩
    rcases ih s2 with ⟨u, hu⟩
    exact ⟨u, by simp [unionFold, hs2, hu]⟩

theorem intersectLists_ok_aux (N : Nat) :
    ∀ (s t : List (Interval α)), s.length + t.length ≤ N →
      ∃ l, intersectLists (linCmp α) s t = Except.ok l := by
  induction N with
  | zero =>
    intro s t hst
    cases s with
    | nil => exact ⟨[], by simp [intersectLists]⟩
    | cons a as =>
      cases t with
      | nil => exact ⟨[], by simp [intersectLists]⟩
      | cons b bs => simp at hst
  | succ n ih =>
    intro s t hst
    cases s with
    | nil => exact ⟨[], by simp [intersectLists]⟩
    | cons a as =>
      cases t with
      | nil => exact ⟨[], by simp [intersectLists]⟩
      | cons b bs =>
        rcases ih as (b :: bs) (by simp at hst ⊢; omega) with ⟨l1, h1ok⟩
        rcases ih (a :: as) bs (by simp at hst ⊢; omega) with ⟨l2, h2ok⟩
        rcases ih as bs (by simp at hst ⊢; omega) with ⟨l3, h3ok⟩
        cases hadv1 : rightEndpointLt (linCmp α) a.right b.right with
        | true =>
          cases hsep : Interval.is_separated_from (linCmp α) a b with
          | true => exact ⟨l1, by simp [intersectLists, hadv1, hsep, h1ok]⟩
          | false =>
            exact ⟨⟨Interval.greater_left_endpoint (linCmp α) a b,
                Interval.less_right_endpoint (linCmp α) a b⟩ :: l1,
              by simp [intersectLists, overlapInterval, hadv1, hsep, h1ok]⟩
        | false =>
          cases hadv2 : rightEndpointLt (linCmp α) b.right a.right with
          | true =>
            cases hsep : Interval.is_separated_from (linCmp α) a b with
            | true => exact ⟨l2, by simp [intersectLists, hadv1, hadv2, hsep, h2ok]⟩
            | false =>
              exact ⟨⟨Interval.greater_left_endpoint (linCmp α) a b,
                  Interval.less_right_endpoint (linCmp α) a b⟩ :: l2,
                by simp [intersectLists, overlapInterval, hadv1, hadv2, hsep, h2ok]⟩
          | false =>
            cases hsep : Interval.is_separated_from (linCmp α) a b with
            | true => exact ⟨l3, by simp [intersectLists, hadv1, hadv2, hsep, h3ok]⟩
            | false =>
              exact ⟨⟨Interval.greater_left_endpoint (linCmp α) a b,
                  Interval.less_right_endpoint (linCmp α) a b⟩ :: l3,
                by simp [intersectLists, overlapInterval, hadv1, hadv2, hsep, h3ok]⟩

theorem intersectLists_ok (s t : List (Interval α)) :
    ∃ l, intersectLists (linCmp α) s t = Except.ok l :=
  intersectLists_ok_aux (s.length + t.length) s t (le_refl _)

end SetOpsTotal

/-- C6: the set-level operations are total over a totally ordered domain: for
every pair of interval sets, union and intersection return a result set and
never surface an error — in particular the `MergeSeparatedIntervals` path is
never reached, because the algorithms test separation before merging or
overlapping. -/
theorem C6_set_ops_total {α : Type} [LinearOrder α] (s t : IntervalSet α) :
    (∃ u, IntervalSet.union (linCmp α) s t = Except.ok u) ∧
    (∃ v, IntervalSet.intersection (linCmp α) s t = Except.ok v) := by
  constructor
  · simpa [IntervalSet.union] using unionFold_ok t.intervals s
  · rcases intersectLists_ok s.intervals t.intervals with ⟨l, hl⟩
    exact ⟨⟨l⟩, by simp [IntervalSet.intersection, hl]⟩

end Toybox
